import Mathlib

/-
Verification of the LMS datastore access layer (`lmsdatastore.py`).

The module maps a learning-management domain (users, courses, lessons,
completions) onto Google Cloud Datastore.  We embed it shallowly:

* a datastore key is a path of (kind, optional identifier) pairs, the
  ancestors first; `client.key(kind, id, parent=p)` appends (kind, id) to
  the parent's path, and `client.key(kind)` is the incomplete one-element
  path [(kind, none)];
* an entity is a key together with its field map; the field maps that occur
  in this program have one of three fixed shapes (LmsUser, LmsCourse,
  LmsLesson), so we represent the map as a sum of three typed records;
* the datastore itself is the ordered list of stored entities; `get` finds
  the first entity with the given key and `put` is create-or-replace by
  key; queries iterate this list in order, which models the store's
  unspecified iteration order;
* Python exceptions (AttributeError on `None.key`, KeyError on a missing
  dict field, TypeError on subscripting `None`, ...) are modelled by
  `Except PyErr`; each datastore client is a view of the same store value,
  so the `client` parameter of the source becomes the `Datastore` argument.
-/

/-- A key path component identifier: Course and User kinds use
caller-assigned strings, Lesson kinds use numeric identifiers. -/
inductive Ident where
  | str : String → Ident
  | num : Nat → Ident
deriving DecidableEq

/-- Python truthiness of the `entity_id` argument of `_load_key`:
`None`, `0` and `""` are falsy, everything else is truthy. -/
def truthyId : Option Ident → Bool
  | none => false
  | some (Ident.str s) => !(s == "")
  | some (Ident.num n) => !(n == 0)

/-- A hierarchical datastore key: the path of (kind, identifier) pairs from
the root ancestor down to the entity itself.  An incomplete key (no
identifier assigned yet) carries `none` in its last component. -/
structure Key where
  path : List (String × Option Ident)
deriving DecidableEq

/-- The kind of a key is the kind of its last path component. -/
def Key.kind (k : Key) : String :=
  match k.path.getLast? with
  | some (t, _) => t
  | none => ""

/-- `key.name` of the datastore client: the string identifier of the last
path component, or `None` when it is numeric or absent. -/
def Key.name (k : Key) : Option String :=
  match k.path.getLast? with
  | some (_, some (Ident.str s)) => some s
  | _ => none

/-- `key.id` of the datastore client: the numeric identifier of the last
path component, or `None` when it is a string name or absent. -/
def Key.id (k : Key) : Option Nat :=
  match k.path.getLast? with
  | some (_, some (Ident.num n)) => some n
  | _ => none

/-- `key.parent`: the key with the last path component removed, or `None`
for a one-element (root) path. -/
def Key.parent (k : Key) : Option Key :=
  if k.path.length ≤ 1 then none else some ⟨k.path.dropLast⟩

def _USER_ENTITY : String := "LmsUser"
def _COURSE_ENTITY : String := "LmsCourse"
def _LESSON_ENTITY : String := "LmsLesson"

/-- Stored field map of an LmsUser entity (see `save_user`/`create_data`):
username, email, passwordhash, about, completions (a list of Lesson keys). -/
structure UserRecord where
  username : String
  email : String
  passwordhash : String
  about : String
  completions : List Key
deriving DecidableEq

/-- Stored field map of an LmsCourse entity (see `create_data`):
code, name, description. -/
structure CourseRecord where
  code : String
  name : String
  description : String
deriving DecidableEq

/-- Stored field map of an LmsLesson entity (see `create_data`):
title, content. -/
structure LessonRecord where
  title : String
  content : String
deriving DecidableEq

/-- The field map of a stored entity: every entity this program ever puts
has one of the three record shapes. -/
inductive EntityData where
  | user : UserRecord → EntityData
  | course : CourseRecord → EntityData
  | lesson : LessonRecord → EntityData
deriving DecidableEq

/-- A datastore entity: its key plus its field map. -/
structure Entity where
  key : Key
  data : EntityData
deriving DecidableEq

/-- The datastore: the ordered list of stored entities.  Queries iterate it
in list order (the store's otherwise unspecified result order). -/
structure Datastore where
  entities : List Entity
deriving DecidableEq

/-- `client.get(key)`: the first stored entity with this key, or `None`. -/
def Datastore.get (db : Datastore) (k : Key) : Option Entity :=
  db.entities.find? (fun e => e.key == k)

/-- `client.put(entity)`: create-or-replace by key. -/
def Datastore.put (db : Datastore) (e : Entity) : Datastore :=
  if db.entities.any (fun x => x.key == e.key) then
    ⟨db.entities.map (fun x => if x.key == e.key then e else x)⟩
  else
    ⟨db.entities ++ [e]⟩

/-- The Python exceptions the module can raise. -/
inductive PyErr where
  | attributeError
  | keyError
  | typeError
deriving DecidableEq

/-- Modelled from the spec: the domain classes live in the `lmsdata` module,
which is not under src/.  Per §3 of the spec the domain User carries
username, email and about only; passwordhash is storage-only and absent
from the domain object. -/
structure User where
  username : String
  email : String
  about : String
deriving DecidableEq

/-- Modelled from the spec: `lmsdata.Lesson(lesson_id, title, content)`,
where the identifier comes from `key.id` (hence optional). -/
structure Lesson where
  lesson_id : Option Nat
  title : String
  content : String
deriving DecidableEq

/-- Modelled from the spec: `lmsdata.Course(code, name, description,
lessons)`, where the code comes from `key.name` (hence optional) and
`lessons` is the transient collection filled at load time. -/
structure Course where
  code : Option String
  name : String
  description : String
  lessons : List Lesson
deriving DecidableEq

/-- Modelled from the spec: `course.add_lesson(lesson)` appends to the
course's transient lesson collection. -/
def Course.add_lesson (c : Course) (l : Lesson) : Course :=
  { c with lessons := c.lessons ++ [l] }

/-- `_load_key(client, entity_type, entity_id, parent_key)`: with a truthy
identifier, `client.key(entity_type, entity_id, parent=parent_key)`;
otherwise `client.key(entity_type)` — an incomplete key of the kind only,
the parent key silently dropped. -/
def _load_key (entity_type : String) (entity_id : Option Ident)
    (parent_key : Option Key) : Key :=
  if truthyId entity_id then
    ⟨(match parent_key with
      | some p => p.path
      | none => []) ++ [(entity_type, entity_id)]⟩
  else
    ⟨[(entity_type, none)]⟩

/-- `_load_entity(client, entity_type, entity_id, parent_key)`: build the
key and get it from the store. -/
def _load_entity (db : Datastore) (entity_type : String)
    (entity_id : Option Ident) (parent_key : Option Key) : Option Entity :=
  db.get (_load_key entity_type entity_id parent_key)

/-- `_course_from_entity(course_entity)`: translate a Course entity to a
domain Course; on `None` the attribute access `course_entity.key` raises
AttributeError; the field accesses raise KeyError unless the entity carries
course fields. -/
def _course_from_entity (course_entity : Option Entity) : Except PyErr Course :=
  match course_entity with
  | none => Except.error PyErr.attributeError
  | some ce =>
    match ce.data with
    | EntityData.course cr =>
      Except.ok { code := ce.key.name, name := cr.name,
                  description := cr.description, lessons := [] }
    | _ => Except.error PyErr.keyError

/-- `_lesson_from_entity(lesson_entity, include_content)`: translate a
Lesson entity to a domain Lesson; content is the empty string unless
`include_content`.  On `None` the access `lesson_entity.key` raises
AttributeError; the field accesses raise KeyError unless the entity
carries lesson fields. -/
def _lesson_from_entity (lesson_entity : Option Entity)
    (include_content : Bool) : Except PyErr Lesson :=
  match lesson_entity with
  | none => Except.error PyErr.attributeError
  | some le =>
    match le.data with
    | EntityData.lesson lr =>
      Except.ok { lesson_id := le.key.id, title := lr.title,
                  content := if include_content then lr.content else "" }
    | _ => Except.error PyErr.keyError

/-- The ancestor query of `load_course`: all LmsLesson-kind entities whose
key path extends the course key's path, in store order. -/
def lessonQuery (db : Datastore) (ancestor : Key) : List Entity :=
  db.entities.filter (fun e =>
    e.key.kind == _LESSON_ENTITY && ancestor.path.isPrefixOf e.key.path)

/-- The `for lesson in query.fetch(): course.add_lesson(...)` loop of
`load_course`, with the error propagation of the translation. -/
def addLessons (course : Course) : List Entity → Except PyErr Course
  | [] => Except.ok course
  | e :: rest =>
    match _lesson_from_entity (some e) false with
    | Except.error err => Except.error err
    | Except.ok l => addLessons (course.add_lesson l) rest

/-- `load_course(course_code)`: get the course entity by code, translate
it (AttributeError when absent), then attach every lesson of the ancestor
query, title-only. -/
def load_course (db : Datastore) (course_code : String) : Except PyErr Course :=
  match _load_entity db _COURSE_ENTITY (some (Ident.str course_code)) none with
  | none => Except.error PyErr.attributeError
  | some course_entity =>
    match _course_from_entity (some course_entity) with
    | Except.error err => Except.error err
    | Except.ok course => addLessons course (lessonQuery db course_entity.key)

/-- The `-name` sort order of `load_courses`: descending by the `name`
field.  Only course records occur under the LmsCourse kind in a
kind-consistent store; the fallback string is never compared there. -/
def courseNameOf (e : Entity) : String :=
  match e.data with
  | EntityData.course cr => cr.name
  | _ => ""

/-- Descending name order between course entities. -/
def courseGe (a b : Entity) : Prop := courseNameOf b ≤ courseNameOf a

instance : DecidableRel courseGe := fun a b =>
  inferInstanceAs (Decidable (courseNameOf b ≤ courseNameOf a))

instance : IsTotal Entity courseGe :=
  ⟨fun a b => le_total (courseNameOf b) (courseNameOf a)⟩

instance : IsTrans Entity courseGe :=
  ⟨fun _ _ _ hab hbc => le_trans hbc hab⟩

/-- `load_courses()`: query every LmsCourse-kind record ordered by name
descending and return the raw, untranslated store records. -/
def load_courses (db : Datastore) : List Entity :=
  List.insertionSort courseGe
    (db.entities.filter (fun e => e.key.kind == _COURSE_ENTITY))

/-- `load_lesson(course_code, lesson_id)`: build the course key, build the
lesson key as its child, get it, translate with full content. -/
def load_lesson (db : Datastore) (course_code : String) (lesson_id : Nat) :
    Except PyErr Lesson :=
  let parent_key := _load_key _COURSE_ENTITY (some (Ident.str course_code)) none
  _lesson_from_entity
    (_load_entity db _LESSON_ENTITY (some (Ident.num lesson_id)) (some parent_key))
    true

/-- The equality filters of the `load_user` query: kind LmsUser, property
`username` equal and property `passwordhash` equal.  An entity lacking a
filtered property never matches an equality filter. -/
def userQueryFilter (username passwordhash : String) (e : Entity) : Bool :=
  e.key.kind == _USER_ENTITY &&
    (match e.data with
     | EntityData.user u => u.username == username && u.passwordhash == passwordhash
     | _ => false)

/-- `load_user(username, passwordhash)`: the first record matching both
equality filters, translated to a domain User (passwordhash stripped), or
`None` when the query result is empty. -/
def load_user (db : Datastore) (username passwordhash : String) : Option User :=
  match (db.entities.filter (userQueryFilter username passwordhash)).head? with
  | some e =>
    match e.data with
    | EntityData.user u => some { username := u.username, email := u.email, about := u.about }
    | _ => none
  | none => none

/-- `load_about_user(username)`: get the user entity; its `about` field if
it exists, the empty string otherwise. -/
def load_about_user (db : Datastore) (username : String) : Except PyErr String :=
  match _load_entity db _USER_ENTITY (some (Ident.str username)) none with
  | some ue =>
    match ue.data with
    | EntityData.user u => Except.ok u.about
    | _ => Except.error PyErr.keyError
  | none => Except.ok ""

/-- A completion mapping as `load_completions` builds it: a Python dict
coursecode → (lessonid → title), i.e. an insertion-ordered association
list whose outer keys are `course_entity.key.name` values and whose inner
keys are `completion.id` values. -/
abbrev CompDict := List (Option String × List (Option Nat × String))

/-- Python `courses[code][lid] = title` after `if code not in courses:
courses[code] = dict()`: update the inner dict entry in place when the
inner key is present, else append; create the outer entry when absent. -/
def setInner (inner : List (Option Nat × String)) (lid : Option Nat)
    (title : String) : List (Option Nat × String) :=
  if inner.any (fun q => q.1 == lid) then
    inner.map (fun q => if q.1 == lid then (lid, title) else q)
  else
    inner ++ [(lid, title)]

def setOuter (courses : CompDict) (code : Option String) (lid : Option Nat)
    (title : String) : CompDict :=
  if courses.any (fun p => p.1 == code) then
    courses.map (fun p => if p.1 == code then (p.1, setInner p.2 lid title) else p)
  else
    courses ++ [(code, setInner [] lid title)]

/-- One iteration of the `for completion in user_entity['completions']`
loop of `load_completions`: get the lesson entity, get the parent course
entity (TypeError on `client.get(None)` for a parentless key), read the
course's key name and the lesson title (AttributeError on a missing
course, TypeError on subscripting a missing lesson, KeyError on a
non-lesson field map), and store the title under the pair of keys. -/
def completionStep (db : Datastore) (courses : CompDict) (completion : Key) :
    Except PyErr CompDict :=
  let lesson_entity := db.get completion
  match completion.parent with
  | none => Except.error PyErr.typeError
  | some pk =>
    match db.get pk with
    | none => Except.error PyErr.attributeError
    | some course_entity =>
      match lesson_entity with
      | none => Except.error PyErr.typeError
      | some le =>
        match le.data with
        | EntityData.lesson lr =>
          Except.ok (setOuter courses course_entity.key.name completion.id lr.title)
        | _ => Except.error PyErr.keyError

/-- The completion loop of `load_completions`, threading the dict. -/
def load_completions_go (db : Datastore) : List Key → CompDict →
    Except PyErr CompDict
  | [], courses => Except.ok courses
  | k :: rest, courses =>
    match completionStep db courses k with
    | Except.error err => Except.error err
    | Except.ok courses2 => load_completions_go db rest courses2

/-- `load_completions(username)`: get the user entity (TypeError on
subscripting `None` when absent), then fold the loop over its
`completions` list starting from the empty dict. -/
def load_completions (db : Datastore) (username : String) :
    Except PyErr CompDict :=
  match _load_entity db _USER_ENTITY (some (Ident.str username)) none with
  | none => Except.error PyErr.typeError
  | some ue =>
    match ue.data with
    | EntityData.user u => load_completions_go db u.completions []
    | _ => Except.error PyErr.keyError

/-- `save_user(user, passwordhash)`: put a fresh entity keyed by the
username carrying exactly username, email, passwordhash, empty about and
empty completions — a full replacement. -/
def save_user (db : Datastore) (user : User) (passwordhash : String) : Datastore :=
  db.put ⟨_load_key _USER_ENTITY (some (Ident.str user.username)) none,
          EntityData.user { username := user.username, email := user.email,
                            passwordhash := passwordhash, about := "",
                            completions := [] }⟩

/-- `save_about_user(username, about)`: get the existing user entity
(TypeError on item assignment to `None` when absent), set its `about`
field and put it back under the same key. -/
def save_about_user (db : Datastore) (username about : String) :
    Except PyErr Datastore :=
  match _load_entity db _USER_ENTITY (some (Ident.str username)) none with
  | none => Except.error PyErr.typeError
  | some ue =>
    match ue.data with
    | EntityData.user u =>
      Except.ok (db.put ⟨ue.key, EntityData.user { u with about := about }⟩)
    | _ => Except.error PyErr.keyError

/-- The `completions = set(); for completion in ...: completions.add(...)`
loop of `save_completion`: collect the list into a duplicate-free list,
which carries exactly the membership structure of the Python set. -/
def completionSet (cs : List Key) : List Key :=
  cs.foldl (fun s c => if s.contains c then s else s ++ [c]) []

/-- `save_completion(username, coursecode, lessonid)`: build the lesson
key under the course key, get the user entity (TypeError on subscripting
`None` when absent), collect its completions into the de-duplicating set,
append the lesson key to the list only when the set does not hold it, and
put the entity back. -/
def save_completion (db : Datastore) (username coursecode : String)
    (lessonid : Nat) : Except PyErr Datastore :=
  let course_key := _load_key _COURSE_ENTITY (some (Ident.str coursecode)) none
  let lesson_key := _load_key _LESSON_ENTITY (some (Ident.num lessonid)) (some course_key)
  match _load_entity db _USER_ENTITY (some (Ident.str username)) none with
  | none => Except.error PyErr.typeError
  | some ue =>
    match ue.data with
    | EntityData.user u =>
      Except.ok (db.put ⟨ue.key,
        EntityData.user { u with completions :=
          if (completionSet u.completions).contains lesson_key then
            u.completions
          else
            u.completions ++ [lesson_key] }⟩)
    | _ => Except.error PyErr.keyError

/-- N successive `save_completion` calls for one user, stopping at the
first raised exception. -/
def save_completions_list (db : Datastore) (username : String) :
    List (String × Nat) → Except PyErr Datastore
  | [] => Except.ok db
  | p :: rest =>
    match save_completion db username p.1 p.2 with
    | Except.error err => Except.error err
    | Except.ok db2 => save_completions_list db2 username rest

/-- The key `load_course`, `save_completion` and `create_data` build for a
course code. -/
def courseKey (code : String) : Key :=
  _load_key _COURSE_ENTITY (some (Ident.str code)) none

/-- The key `load_lesson` and `save_completion` build for a lesson under a
course code. -/
def lessonKeyOf (code : String) (lid : Nat) : Key :=
  _load_key _LESSON_ENTITY (some (Ident.num lid)) (some (courseKey code))

/-- The key every user operation builds for a username. -/
def userKey (un : String) : Key :=
  _load_key _USER_ENTITY (some (Ident.str un)) none

/-- Total number of (course, lesson) entries in a completion mapping. -/
def entryCount (d : CompDict) : Nat :=
  (d.map (fun p => p.2.length)).sum

/-- Lookup of a completion mapping at an outer and inner key. -/
def dictFind (d : CompDict) (c : Option String) (l : Option Nat) : Option String :=
  match d.find? (fun p => p.1 == c) with
  | some p =>
    match p.2.find? (fun q => q.1 == l) with
    | some q => some q.2
    | none => none
  | none => none

/-! ### Store lemmas -/

theorem find?_map_replace (l : List Entity) (e : Entity)
    (h : l.any (fun x => x.key == e.key) = true) :
    (l.map (fun x => if x.key == e.key then e else x)).find?
      (fun x => x.key == e.key) = some e := by
  induction l with
  | nil => simp at h
  | cons a as ih =>
    by_cases ha : a.key = e.key
    · have ha' : (a.key == e.key) = true := beq_iff_eq.mpr ha
      rw [List.map_cons, if_pos ha', List.find?_cons_of_pos _ (by simp)]
    · have ha' : (a.key == e.key) = false := beq_eq_false_iff_ne.mpr ha
      rw [List.any_cons, ha', Bool.false_or] at h
      rw [List.map_cons, if_neg (by simp [ha]), List.find?_cons_of_neg _ (by simp [ha])]
      exact ih h

theorem find?_map_replace_other (l : List Entity) (e : Entity) (k : Key)
    (h : k ≠ e.key) :
    (l.map (fun x => if x.key == e.key then e else x)).find?
      (fun x => x.key == k) = l.find? (fun x => x.key == k) := by
  induction l with
  | nil => rfl
  | cons a as ih =>
    by_cases ha : a.key = e.key
    · have hek : e.key ≠ k := fun hh => h hh.symm
      have hak : a.key ≠ k := by rw [ha]; exact hek
      rw [List.map_cons, if_pos (beq_iff_eq.mpr ha), List.find?_cons_of_neg _ (by simp [hek]),
        List.find?_cons_of_neg _ (by simp [hak])]
      exact ih
    · rw [List.map_cons, if_neg (by simp [ha])]
      by_cases hk : a.key = k
      · rw [List.find?_cons_of_pos _ (by simp [hk]), List.find?_cons_of_pos _ (by simp [hk])]
      · rw [List.find?_cons_of_neg _ (by simp [hk]), List.find?_cons_of_neg _ (by simp [hk])]
        exact ih

theorem put_get_same (db : Datastore) (e : Entity) :
    (db.put e).get e.key = some e := by
  unfold Datastore.put Datastore.get
  by_cases h : db.entities.any (fun x => x.key == e.key) = true
  · rw [if_pos h]
    exact find?_map_replace db.entities e h
  · rw [if_neg h]
    have hn : db.entities.find? (fun x => x.key == e.key) = none := by
      rw [List.find?_eq_none]
      intro x hx hpx
      exact h (List.any_eq_true.mpr ⟨x, hx, hpx⟩)
    simp [List.find?_append, hn, List.find?]

theorem put_get_other (db : Datastore) (e : Entity) (k : Key) (h : k ≠ e.key) :
    (db.put e).get k = db.get k := by
  unfold Datastore.put Datastore.get
  by_cases hany : db.entities.any (fun x => x.key == e.key) = true
  · rw [if_pos hany]
    exact find?_map_replace_other db.entities e k h
  · rw [if_neg hany]
    have he : (e.key == k) = false := beq_eq_false_iff_ne.mpr (fun hh => h hh.symm)
    simp [List.find?_append, List.find?, he, Option.or]
    cases db.entities.find? (fun x => x.key == k) <;> rfl

/-! ### Query lemmas -/

theorem filter_head?_eq_find? (p : Entity → Bool) (l : List Entity) :
    (l.filter p).head? = l.find? p := by
  induction l with
  | nil => rfl
  | cons a as ih =>
    cases hp : p a with
    | true => simp [List.filter, List.find?, hp]
    | false => simp [List.filter, List.find?, hp, ih]

theorem find?_eq_some_split (p : Entity → Bool) :
    ∀ (l : List Entity) (e : Entity),
      l.find? p = some e ↔
        p e = true ∧ ∃ l1 l2, l = l1 ++ e :: l2 ∧ ∀ x ∈ l1, p x = false := by
  intro l e
  induction l with
  | nil => simp [List.find?]
  | cons a as ih =>
    cases hp : p a with
    | true =>
      simp only [List.find?, hp, Option.some.injEq]
      constructor
      · rintro rfl
        exact ⟨hp, [], as, rfl, by intro x hx; cases hx⟩
      · rintro ⟨hpe, l1, l2, hsplit, hnone⟩
        cases l1 with
        | nil =>
          have h2 : a = e ∧ as = l2 := by simpa using hsplit
          exact h2.1
        | cons b bs =>
          have hb : p b = false := hnone b (List.mem_cons_self b bs)
          have hab : a = b := (List.cons_eq_cons.mp hsplit).1
          rw [hab, hb] at hp
          cases hp
    | false =>
      simp only [List.find?, hp]
      rw [ih]
      constructor
      · rintro ⟨hpe, l1, l2, hsplit, hnone⟩
        refine ⟨hpe, a :: l1, l2, by rw [hsplit]; rfl, ?_⟩
        intro x hx
        rcases List.mem_cons.mp hx with hxa | hxl
        · rw [hxa]; exact hp
        · exact hnone x hxl
      · rintro ⟨hpe, l1, l2, hsplit, hnone⟩
        cases l1 with
        | nil =>
          have : a = e := (List.cons_eq_cons.mp hsplit).1
          rw [this, hpe] at hp
          cases hp
        | cons b bs =>
          rcases List.cons_eq_cons.mp hsplit with ⟨hab, hsplit'⟩
          refine ⟨hpe, bs, l2, hsplit', ?_⟩
          intro x hx
          exact hnone x (List.mem_cons_of_mem b hx)

/-! ### The de-duplicating set of save_completion -/

theorem mem_foldl_insert (k : Key) :
    ∀ (l acc : List Key),
      (k ∈ l.foldl (fun s c => if s.contains c then s else s ++ [c]) acc)
        ↔ (k ∈ acc ∨ k ∈ l) := by
  intro l
  induction l with
  | nil => intro acc; simp
  | cons c cs ih =>
    intro acc
    simp only [List.foldl_cons]
    by_cases hc : acc.contains c = true
    · rw [if_pos hc, ih]
      have hcacc : c ∈ acc := List.elem_iff.mp hc
      constructor
      · rintro (h | h)
        · exact Or.inl h
        · exact Or.inr (List.mem_cons_of_mem _ h)
      · rintro (h | h)
        · exact Or.inl h
        · rcases List.mem_cons.mp h with rfl | h'
          · exact Or.inl hcacc
          · exact Or.inr h'
    · rw [if_neg hc, ih]
      simp only [List.mem_append, List.mem_cons, List.mem_singleton]
      tauto

theorem completionSet_mem (cs : List Key) (k : Key) :
    k ∈ completionSet cs ↔ k ∈ cs := by
  unfold completionSet
  rw [mem_foldl_insert]
  simp

theorem completionSet_contains (cs : List Key) (k : Key) :
    (completionSet cs).contains k = cs.contains k := by
  rw [Bool.eq_iff_iff]
  constructor
  · intro h
    exact List.elem_iff.mpr ((completionSet_mem cs k).mp (List.elem_iff.mp h))
  · intro h
    exact List.elem_iff.mpr ((completionSet_mem cs k).mpr (List.elem_iff.mp h))

/-! ### Key shape lemmas -/

theorem userKey_eq_of_ne (un : String) (h : un ≠ "") :
    userKey un = ⟨[(_USER_ENTITY, some (Ident.str un))]⟩ := by
  unfold userKey _load_key
  have ht : truthyId (some (Ident.str un)) = true := by simp [truthyId, h]
  rw [if_pos ht]
  rfl

theorem courseKey_eq_of_ne (c : String) (h : c ≠ "") :
    courseKey c = ⟨[(_COURSE_ENTITY, some (Ident.str c))]⟩ := by
  unfold courseKey _load_key
  have ht : truthyId (some (Ident.str c)) = true := by simp [truthyId, h]
  rw [if_pos ht]
  rfl

theorem lessonKeyOf_eq_of_ne (c : String) (l : Nat) (hc : c ≠ "") (hl : l ≠ 0) :
    lessonKeyOf c l
      = ⟨[(_COURSE_ENTITY, some (Ident.str c)), (_LESSON_ENTITY, some (Ident.num l))]⟩ := by
  unfold lessonKeyOf _load_key
  have ht : truthyId (some (Ident.num l)) = true := by simp [truthyId, hl]
  rw [if_pos ht, courseKey_eq_of_ne c hc]
  rfl

theorem userKey_head (un : String) :
    (userKey un).path.head?.map Prod.fst = some _USER_ENTITY := by
  unfold userKey _load_key
  by_cases h : truthyId (some (Ident.str un)) = true
  · rw [if_pos h]; rfl
  · rw [if_neg h]; rfl

theorem courseKey_head (c : String) :
    (courseKey c).path.head?.map Prod.fst = some _COURSE_ENTITY := by
  unfold courseKey _load_key
  by_cases h : truthyId (some (Ident.str c)) = true
  · rw [if_pos h]; rfl
  · rw [if_neg h]; rfl

theorem lessonKeyOf_head (c : String) (l : Nat) :
    (lessonKeyOf c l).path.head?.map Prod.fst = some _COURSE_ENTITY ∨
    (lessonKeyOf c l).path.head?.map Prod.fst = some _LESSON_ENTITY := by
  unfold lessonKeyOf _load_key
  by_cases h : truthyId (some (Ident.num l)) = true
  · left
    rw [if_pos h]
    show ((courseKey c).path ++ [(_LESSON_ENTITY, some (Ident.num l))]).head?.map Prod.fst
      = some _COURSE_ENTITY
    have hck := courseKey_head c
    cases hpath : (courseKey c).path with
    | nil =>
      rw [hpath] at hck
      simp at hck
    | cons a as =>
      rw [hpath] at hck
      simpa using hck
  · right
    rw [if_neg h]
    rfl

theorem courseKey_ne_userKey (c un : String) : courseKey c ≠ userKey un := by
  intro h
  have h1 := congrArg (fun k : Key => k.path.head?.map Prod.fst) h
  simp only at h1
  rw [userKey_head un, courseKey_head c] at h1
  have : _COURSE_ENTITY = _USER_ENTITY := Option.some.inj h1
  exact absurd this (by decide)

theorem lessonKeyOf_ne_userKey (c un : String) (l : Nat) :
    lessonKeyOf c l ≠ userKey un := by
  intro h
  have h1 := congrArg (fun k : Key => k.path.head?.map Prod.fst) h
  simp only at h1
  rw [userKey_head un] at h1
  rcases lessonKeyOf_head c l with h2 | h2 <;> rw [h2] at h1
  · exact absurd (Option.some.inj h1) (by decide)
  · exact absurd (Option.some.inj h1) (by decide)

theorem lessonKeyOf_inj (c1 c2 : String) (l1 l2 : Nat)
    (hc1 : c1 ≠ "") (hl1 : l1 ≠ 0) (hc2 : c2 ≠ "") (hl2 : l2 ≠ 0)
    (h : lessonKeyOf c1 l1 = lessonKeyOf c2 l2) : c1 = c2 ∧ l1 = l2 := by
  rw [lessonKeyOf_eq_of_ne c1 l1 hc1 hl1, lessonKeyOf_eq_of_ne c2 l2 hc2 hl2] at h
  have h2 := congrArg Key.path h
  simp at h2
  exact ⟨h2.1, h2.2⟩

/-! ### Claim theorems -/

/-- C10: when the supplied identifier is falsy (`None`, `0` or `""`),
`_load_key` builds a key holding the entity kind only, with no identifier
and no parent; consequently `load_lesson(course_code, 0)` does not depend
on the course code at all, and `load_about_user("")` fetches the
incomplete kind-only user key rather than a username-addressed record. -/
theorem load_key_falsy_drops_id_and_parent :
    (∀ (et : String) (pk : Option Key),
        _load_key et none pk = ⟨[(et, none)]⟩ ∧
        _load_key et (some (Ident.num 0)) pk = ⟨[(et, none)]⟩ ∧
        _load_key et (some (Ident.str "")) pk = ⟨[(et, none)]⟩) ∧
    (∀ (db : Datastore) (c1 c2 : String), load_lesson db c1 0 = load_lesson db c2 0) ∧
    (∀ db : Datastore,
        _load_entity db _USER_ENTITY (some (Ident.str "")) none
          = db.get ⟨[(_USER_ENTITY, none)]⟩) := by
  refine ⟨fun et pk => ⟨rfl, rfl, rfl⟩, fun db c1 c2 => rfl, fun db => rfl⟩

/-- C6: when the addressed record is absent, `load_course`, `load_lesson`
and `save_about_user` all raise (AttributeError on `None.key`, TypeError
on `None['about'] = ...`), never returning a silent empty result. -/
theorem absent_record_raises (db : Datastore) (code un about : String) (lid : Nat) :
    (db.get (courseKey code) = none →
      load_course db code = Except.error PyErr.attributeError) ∧
    (db.get (lessonKeyOf code lid) = none →
      load_lesson db code lid = Except.error PyErr.attributeError) ∧
    (db.get (userKey un) = none →
      save_about_user db un about = Except.error PyErr.typeError) := by
  refine ⟨fun h => ?_, fun h => ?_, fun h => ?_⟩
  · have h' : _load_entity db _COURSE_ENTITY (some (Ident.str code)) none = none := h
    unfold load_course
    rw [h']
  · have h' : _load_entity db _LESSON_ENTITY (some (Ident.num lid))
        (some (_load_key _COURSE_ENTITY (some (Ident.str code)) none)) = none := h
    show _lesson_from_entity
      (_load_entity db _LESSON_ENTITY (some (Ident.num lid))
        (some (_load_key _COURSE_ENTITY (some (Ident.str code)) none))) true
      = Except.error PyErr.attributeError
    rw [h']
    rfl
  · have h' : _load_entity db _USER_ENTITY (some (Ident.str un)) none = none := h
    unfold save_about_user
    rw [h']

/-- C7: `load_about_user` returns the stored `about` field when the user
record exists and the empty string, without raising, when it does not. -/
theorem load_about_user_lenient (db : Datastore) (un : String) (u : UserRecord) :
    (db.get (userKey un) = some ⟨userKey un, EntityData.user u⟩ →
      load_about_user db un = Except.ok u.about) ∧
    (db.get (userKey un) = none → load_about_user db un = Except.ok "") := by
  constructor
  · intro h
    have h' : _load_entity db _USER_ENTITY (some (Ident.str un)) none
        = some ⟨userKey un, EntityData.user u⟩ := h
    unfold load_about_user
    rw [h']
  · intro h
    have h' : _load_entity db _USER_ENTITY (some (Ident.str un)) none = none := h
    unfold load_about_user
    rw [h']

/-- C8: `load_courses` returns the raw store records of every LmsCourse
entity (a permutation of the kind filter over the store, hence untranslated
`Entity` values of the store itself), sorted by the name field in
descending lexicographic order. -/
theorem load_courses_raw_sorted (db : Datastore) :
    (load_courses db).Perm
      (db.entities.filter (fun e => e.key.kind == _COURSE_ENTITY)) ∧
    List.Sorted courseGe (load_courses db) ∧
    (∀ e ∈ load_courses db, e ∈ db.entities ∧ e.key.kind = _COURSE_ENTITY) := by
  refine ⟨List.perm_insertionSort courseGe _, List.sorted_insertionSort courseGe _, ?_⟩
  intro e he
  have hmem : e ∈ db.entities.filter (fun e => e.key.kind == _COURSE_ENTITY) :=
    (List.mem_insertionSort courseGe).mp he
  have := List.mem_filter.mp hmem
  exact ⟨this.1, beq_iff_eq.mp this.2⟩

/-- C3: `save_user` writes a full-replacement record keyed by the username
holding exactly username, email, passwordhash, empty about and empty
completions, and `load_about_user` immediately afterwards returns "". -/
theorem save_user_full_replace (db : Datastore) (user : User) (ph : String)
    (h : user.username ≠ "") :
    (save_user db user ph).get ⟨[(_USER_ENTITY, some (Ident.str user.username))]⟩
      = some ⟨⟨[(_USER_ENTITY, some (Ident.str user.username))]⟩,
              EntityData.user ⟨user.username, user.email, ph, "", []⟩⟩ ∧
    load_about_user (save_user db user ph) user.username = Except.ok "" := by
  have hk : userKey user.username = ⟨[(_USER_ENTITY, some (Ident.str user.username))]⟩ :=
    userKey_eq_of_ne _ h
  constructor
  · rw [← hk]
    exact put_get_same db ⟨userKey user.username,
      EntityData.user ⟨user.username, user.email, ph, "", []⟩⟩
  · have h1 : _load_entity (save_user db user ph) _USER_ENTITY
        (some (Ident.str user.username)) none
        = some ⟨userKey user.username,
                EntityData.user ⟨user.username, user.email, ph, "", []⟩⟩ :=
      put_get_same db ⟨userKey user.username,
        EntityData.user ⟨user.username, user.email, ph, "", []⟩⟩
    unfold load_about_user
    rw [h1]

/-- C2: `load_user` returns exactly the translation of the first stored
record whose username and passwordhash both match, and returns `None`
when no record matches both — in particular when the username matches but
the passwordhash is wrong. -/
theorem load_user_exact_match (db : Datastore) (un ph : String) :
    (∀ u : User, load_user db un ph = some u ↔
      ∃ l1 e l2 r, db.entities = l1 ++ e :: l2 ∧
        (∀ x ∈ l1, userQueryFilter un ph x = false) ∧
        e.key.kind = _USER_ENTITY ∧ e.data = EntityData.user r ∧
        r.username = un ∧ r.passwordhash = ph ∧
        u = { username := r.username, email := r.email, about := r.about }) ∧
    ((∀ e ∈ db.entities, ∀ r : UserRecord,
        e.data = EntityData.user r → r.username = un → r.passwordhash ≠ ph) →
      load_user db un ph = none) := by
  constructor
  · intro u
    unfold load_user
    rw [filter_head?_eq_find?]
    constructor
    · intro hu
      cases hfind : db.entities.find? (userQueryFilter un ph) with
      | none => rw [hfind] at hu; cases hu
      | some e =>
        rw [hfind] at hu
        obtain ⟨hpe, l1, l2, heq, hnone⟩ :=
          (find?_eq_some_split (userQueryFilter un ph) db.entities e).mp hfind
        cases hd : e.data with
        | user r =>
          simp only [hd, Option.some.injEq] at hu
          unfold userQueryFilter at hpe
          rw [hd] at hpe
          simp only [Bool.and_eq_true, beq_iff_eq] at hpe
          exact ⟨l1, e, l2, r, heq, hnone, hpe.1, hd, hpe.2.1, hpe.2.2, hu.symm⟩
        | course cr =>
          unfold userQueryFilter at hpe
          rw [hd] at hpe
          simp at hpe
        | lesson lr =>
          unfold userQueryFilter at hpe
          rw [hd] at hpe
          simp at hpe
    · rintro ⟨l1, e, l2, r, heq, hnone, hkind, hdata, hun, hph, hu⟩
      have hpe : userQueryFilter un ph e = true := by
        unfold userQueryFilter
        rw [hdata]
        simp [hkind, hun, hph]
      have hfind : db.entities.find? (userQueryFilter un ph) = some e :=
        (find?_eq_some_split _ _ _).mpr ⟨hpe, l1, l2, heq, hnone⟩
      rw [hfind]
      simp [hdata, hu]
  · intro hno
    unfold load_user
    rw [filter_head?_eq_find?]
    have hnone : db.entities.find? (userQueryFilter un ph) = none := by
      rw [List.find?_eq_none]
      intro x hx hpx
      unfold userQueryFilter at hpx
      cases hd : x.data with
      | user r =>
        rw [hd] at hpx
        simp only [Bool.and_eq_true, beq_iff_eq] at hpx
        exact hno x hx r hd hpx.2.1 hpx.2.2
      | course cr => rw [hd] at hpx; simp at hpx
      | lesson lr => rw [hd] at hpx; simp at hpx
    rw [hnone]

/-- C4: any User returned by `load_user` is built from the username, email
and about fields of some stored user record alone — the domain `User` type
has no passwordhash attribute, so the stored passwordhash never reaches
the caller. -/
theorem load_user_strips_passwordhash (db : Datastore) (un ph : String) (u : User)
    (h : load_user db un ph = some u) :
    ∃ e ∈ db.entities, ∃ r : UserRecord,
      e.data = EntityData.user r ∧
      u = { username := r.username, email := r.email, about := r.about } := by
  unfold load_user at h
  rw [filter_head?_eq_find?] at h
  cases hfind : db.entities.find? (userQueryFilter un ph) with
  | none => rw [hfind] at h; cases h
  | some e =>
    rw [hfind] at h
    have hmem := List.mem_of_find?_eq_some hfind
    have hpe := List.find?_some hfind
    cases hd : e.data with
    | user r =>
      simp only [hd, Option.some.injEq] at h
      exact ⟨e, hmem, r, hd, h.symm⟩
    | course cr =>
      unfold userQueryFilter at hpe
      rw [hd] at hpe
      simp at hpe
    | lesson lr =>
      unfold userQueryFilter at hpe
      rw [hd] at hpe
      simp at hpe

/-- Helper: the value of `save_completion` on a store whose user record
exists: the user entity is rewritten with the lesson key appended exactly
when the de-duplicating set does not already hold it. -/
theorem save_completion_eq (db : Datastore) (un cc : String) (lid : Nat)
    (u : UserRecord)
    (hu : db.get (userKey un) = some ⟨userKey un, EntityData.user u⟩) :
    save_completion db un cc lid = Except.ok (db.put ⟨userKey un,
      EntityData.user { u with completions :=
        if u.completions.contains (lessonKeyOf cc lid) then u.completions
        else u.completions ++ [lessonKeyOf cc lid] }⟩) := by
  have h' : _load_entity db _USER_ENTITY (some (Ident.str un)) none
      = some ⟨userKey un, EntityData.user u⟩ := hu
  simp only [save_completion, h', completionSet_contains]
  rfl

theorem contains_eq_false_of_not_mem {l : List Key} {k : Key} (h : k ∉ l) :
    l.contains k = false := by
  cases hc : l.contains k with
  | false => rfl
  | true => exact absurd (List.elem_iff.mp hc) h

/-- C9: `save_completion` on an existing user record preserves the
username, email, passwordhash and about fields and the existing
completions entries in order, appending at most one new key at the end. -/
theorem save_completion_frame (db : Datastore) (un cc : String) (lid : Nat)
    (u : UserRecord)
    (hu : db.get (userKey un) = some ⟨userKey un, EntityData.user u⟩) :
    ∃ db2 u2 t,
      save_completion db un cc lid = Except.ok db2 ∧
      db2.get (userKey un) = some ⟨userKey un, EntityData.user u2⟩ ∧
      u2.username = u.username ∧ u2.email = u.email ∧
      u2.passwordhash = u.passwordhash ∧ u2.about = u.about ∧
      u2.completions = u.completions ++ t ∧ t.length ≤ 1 := by
  have heq := save_completion_eq db un cc lid u hu
  by_cases hc : u.completions.contains (lessonKeyOf cc lid) = true
  · rw [if_pos hc] at heq
    have heq2 : save_completion db un cc lid
        = Except.ok (db.put ⟨userKey un, EntityData.user u⟩) := heq
    refine ⟨db.put ⟨userKey un, EntityData.user u⟩, u, [], heq2, ?_, rfl, rfl, rfl, rfl, by simp, by simp⟩
    exact put_get_same db ⟨userKey un, EntityData.user u⟩
  · rw [if_neg hc] at heq
    refine ⟨_, { u with completions := u.completions ++ [lessonKeyOf cc lid] },
      [lessonKeyOf cc lid], heq, ?_, rfl, rfl, rfl, rfl, rfl, by simp⟩
    exact put_get_same db ⟨userKey un,
      EntityData.user { u with completions := u.completions ++ [lessonKeyOf cc lid] }⟩

/-- C1: calling `save_completion` twice with the same arguments, on a
store whose user record exists and records that lesson complete at most
once (the set-in-meaning invariant of `completions`), both calls succeed
and leave exactly one entry for the lesson's key in the user's
completions list — the second call does not append again. -/
theorem save_completion_idempotent (db : Datastore) (un cc : String) (lid : Nat)
    (u : UserRecord)
    (hu : db.get (userKey un) = some ⟨userKey un, EntityData.user u⟩)
    (hdup : u.completions.count (lessonKeyOf cc lid) ≤ 1) :
    ∃ db1 db2 u2,
      save_completion db un cc lid = Except.ok db1 ∧
      save_completion db1 un cc lid = Except.ok db2 ∧
      db2.get (userKey un) = some ⟨userKey un, EntityData.user u2⟩ ∧
      u2.completions.count (lessonKeyOf cc lid) = 1 := by
  have h1 := save_completion_eq db un cc lid u hu
  by_cases hc : u.completions.contains (lessonKeyOf cc lid) = true
  · rw [if_pos hc] at h1
    have h1' : save_completion db un cc lid
        = Except.ok (db.put ⟨userKey un, EntityData.user u⟩) := h1
    have hmem : lessonKeyOf cc lid ∈ u.completions := List.elem_iff.mp hc
    have hcount : u.completions.count (lessonKeyOf cc lid) = 1 :=
      le_antisymm hdup (List.count_pos_iff.mpr hmem)
    have hget1 : (db.put ⟨userKey un, EntityData.user u⟩).get (userKey un)
        = some ⟨userKey un, EntityData.user u⟩ :=
      put_get_same db ⟨userKey un, EntityData.user u⟩
    have h2 := save_completion_eq (db.put ⟨userKey un, EntityData.user u⟩) un cc lid u hget1
    rw [if_pos hc] at h2
    have h2' : save_completion (db.put ⟨userKey un, EntityData.user u⟩) un cc lid
        = Except.ok ((db.put ⟨userKey un, EntityData.user u⟩).put
            ⟨userKey un, EntityData.user u⟩) := h2
    refine ⟨_, _, u, h1', h2', ?_, hcount⟩
    exact put_get_same _ ⟨userKey un, EntityData.user u⟩
  · rw [if_neg hc] at h1
    have hnotmem : lessonKeyOf cc lid ∉ u.completions :=
      fun hm => hc (List.elem_iff.mpr hm)
    have hcount0 : u.completions.count (lessonKeyOf cc lid) = 0 :=
      List.count_eq_zero.mpr hnotmem
    have hget1 : (db.put ⟨userKey un, EntityData.user
          { u with completions := u.completions ++ [lessonKeyOf cc lid] }⟩).get (userKey un)
        = some ⟨userKey un, EntityData.user
            { u with completions := u.completions ++ [lessonKeyOf cc lid] }⟩ :=
      put_get_same db _
    have h2 := save_completion_eq _ un cc lid
      { u with completions := u.completions ++ [lessonKeyOf cc lid] } hget1
    have hc2 : ({ u with completions := u.completions ++ [lessonKeyOf cc lid] }
        : UserRecord).completions.contains (lessonKeyOf cc lid) = true :=
      List.elem_iff.mpr (by simp)
    rw [if_pos hc2] at h2
    refine ⟨_, _, { u with completions := u.completions ++ [lessonKeyOf cc lid] },
      h1, h2, ?_, ?_⟩
    · exact put_get_same _ ⟨userKey un, EntityData.user
        { u with completions := u.completions ++ [lessonKeyOf cc lid] }⟩
    · simp [List.count_append, hcount0]

/-! ### C5 phase 1: the N save_completion calls -/

theorem save_list_progress (un : String) :
    ∀ (ps : List (String × Nat)) (db : Datastore) (u : UserRecord),
      db.get (userKey un) = some ⟨userKey un, EntityData.user u⟩ →
      (∀ p ∈ ps, lessonKeyOf p.1 p.2 ∉ u.completions) →
      (ps.map (fun p => lessonKeyOf p.1 p.2)).Nodup →
      ∃ db2,
        save_completions_list db un ps = Except.ok db2 ∧
        db2.get (userKey un) = some ⟨userKey un, EntityData.user
          { u with completions :=
              u.completions ++ ps.map (fun p => lessonKeyOf p.1 p.2) }⟩ ∧
        ∀ k2, k2 ≠ userKey un → db2.get k2 = db.get k2 := by
  intro ps
  induction ps with
  | nil =>
    intro db u hu _ _
    refine ⟨db, rfl, ?_, fun k2 _ => rfl⟩
    simpa using hu
  | cons p rest ih =>
    intro db u hu hnotin hnd
    have heq := save_completion_eq db un p.1 p.2 u hu
    have hc : u.completions.contains (lessonKeyOf p.1 p.2) = false :=
      contains_eq_false_of_not_mem (hnotin p (List.mem_cons_self p rest))
    have hc' : ¬ u.completions.contains (lessonKeyOf p.1 p.2) = true := by
      rw [hc]
      exact Bool.false_ne_true
    rw [if_neg hc'] at heq
    have hget1 : (db.put ⟨userKey un, EntityData.user
          { u with completions := u.completions ++ [lessonKeyOf p.1 p.2] }⟩).get (userKey un)
        = some ⟨userKey un, EntityData.user
            { u with completions := u.completions ++ [lessonKeyOf p.1 p.2] }⟩ :=
      put_get_same db _
    have hrest_notin : ∀ q ∈ rest, lessonKeyOf q.1 q.2 ∉
        ({ u with completions := u.completions ++ [lessonKeyOf p.1 p.2] }
          : UserRecord).completions := by
      intro q hq hmem
      rcases List.mem_append.mp hmem with hmem' | hmem'
      · exact hnotin q (List.mem_cons_of_mem p hq) hmem'
      · have hqp : lessonKeyOf q.1 q.2 = lessonKeyOf p.1 p.2 :=
          List.mem_singleton.mp hmem'
        have hknotin : lessonKeyOf p.1 p.2 ∉
            rest.map (fun p => lessonKeyOf p.1 p.2) := (List.nodup_cons.mp hnd).1
        exact hknotin (hqp ▸ List.mem_map_of_mem (fun p => lessonKeyOf p.1 p.2) hq)
    obtain ⟨db2, hsl, hget2, hframe⟩ :=
      ih (db.put ⟨userKey un, EntityData.user
            { u with completions := u.completions ++ [lessonKeyOf p.1 p.2] }⟩)
        { u with completions := u.completions ++ [lessonKeyOf p.1 p.2] }
        hget1 hrest_notin (List.nodup_cons.mp hnd).2
    refine ⟨db2, ?_, ?_, ?_⟩
    · unfold save_completions_list
      rw [heq]
      exact hsl
    · have hlist : (u.completions ++ [lessonKeyOf p.1 p.2])
            ++ rest.map (fun p => lessonKeyOf p.1 p.2)
          = u.completions ++ (p :: rest).map (fun p => lessonKeyOf p.1 p.2) := by
        simp
      rw [← hlist]
      exact hget2
    · intro k2 hne
      exact (hframe k2 hne).trans (put_get_other db
        ⟨userKey un, EntityData.user
          { u with completions := u.completions ++ [lessonKeyOf p.1 p.2] }⟩ k2 hne)

/-! ### C5 phase 2: dictionary lemmas -/

theorem entryCount_cons (a : Option String × List (Option Nat × String))
    (d : CompDict) : entryCount (a :: d) = a.2.length + entryCount d := by
  unfold entryCount
  simp

theorem dictFind_cons_no (a : Option String × List (Option Nat × String))
    (d : CompDict) (c : Option String) (l : Option Nat)
    (ha : (a.1 == c) = false) :
    dictFind (a :: d) c l = dictFind d c l := by
  unfold dictFind
  rw [List.find?_cons_of_neg _ (by simp [ha])]

theorem dictFind_cons_yes (a : Option String × List (Option Nat × String))
    (d : CompDict) (c : Option String) (l : Option Nat)
    (ha : (a.1 == c) = true) :
    dictFind (a :: d) c l
      = (match a.2.find? (fun q => q.1 == l) with
         | some q => some q.2
         | none => none) := by
  unfold dictFind
  rw [List.find?_cons_of_pos _ (by exact ha)]

theorem setOuter_cons_no (a : Option String × List (Option Nat × String))
    (d : CompDict) (c : Option String) (l : Option Nat) (t : String)
    (ha : (a.1 == c) = false) :
    setOuter (a :: d) c l t = a :: setOuter d c l t := by
  unfold setOuter
  rw [List.any_cons, ha, Bool.false_or]
  by_cases hd : d.any (fun p => p.1 == c) = true
  · rw [if_pos hd, if_pos hd, List.map_cons, if_neg (by simp [ha])]
  · rw [if_neg hd, if_neg hd, List.cons_append]

theorem setOuter_cons_yes (a : Option String × List (Option Nat × String))
    (d : CompDict) (c : Option String) (l : Option Nat) (t : String)
    (ha : (a.1 == c) = true) :
    setOuter (a :: d) c l t
      = (a.1, setInner a.2 l t)
          :: d.map (fun p => if p.1 == c then (p.1, setInner p.2 l t) else p) := by
  unfold setOuter
  rw [List.any_cons, ha, Bool.true_or, if_pos rfl, List.map_cons, if_pos ha]

theorem setInner_map_find_self :
    ∀ (inner : List (Option Nat × String)) (l : Option Nat) (t : String),
      inner.any (fun q => q.1 == l) = true →
      (inner.map (fun q => if q.1 == l then (l, t) else q)).find?
        (fun q => q.1 == l) = some (l, t) := by
  intro inner l t h
  induction inner with
  | nil => simp at h
  | cons a as ih =>
    by_cases ha : (a.1 == l) = true
    · rw [List.map_cons, if_pos ha, List.find?_cons_of_pos _ (by simp)]
    · rw [List.any_cons] at h
      have ha' : (a.1 == l) = false := by
        cases hx : (a.1 == l) with
        | false => rfl
        | true => exact absurd hx ha
      rw [ha', Bool.false_or] at h
      rw [List.map_cons, if_neg ha, List.find?_cons_of_neg _ (by simp [ha'])]
      exact ih h

theorem setInner_find_self (inner : List (Option Nat × String))
    (l : Option Nat) (t : String) :
    (setInner inner l t).find? (fun q => q.1 == l) = some (l, t) := by
  unfold setInner
  by_cases h : inner.any (fun q => q.1 == l) = true
  · rw [if_pos h]
    exact setInner_map_find_self inner l t h
  · rw [if_neg h, List.find?_append]
    have hnone : inner.find? (fun q => q.1 == l) = none := by
      rw [List.find?_eq_none]
      intro x hx hpx
      exact h (List.any_eq_true.mpr ⟨x, hx, hpx⟩)
    rw [hnone]
    simp

theorem setInner_map_find_other :
    ∀ (inner : List (Option Nat × String)) (l : Option Nat) (t : String)
      (l' : Option Nat), l' ≠ l →
      (inner.map (fun q => if q.1 == l then (l, t) else q)).find?
        (fun q => q.1 == l')
        = inner.find? (fun q => q.1 == l') := by
  intro inner l t l' h
  induction inner with
  | nil => rfl
  | cons a as ih =>
    by_cases ha : (a.1 == l) = true
    · have hal : a.1 = l := beq_iff_eq.mp ha
      have hll : (l == l') = false := beq_eq_false_iff_ne.mpr (fun hh => h hh.symm)
      have ha' : (a.1 == l') = false := by rw [hal]; exact hll
      rw [List.map_cons, if_pos ha, List.find?_cons_of_neg _ (by simp [hll]),
        List.find?_cons_of_neg _ (by simp [ha'])]
      exact ih
    · rw [List.map_cons, if_neg ha]
      by_cases hk : (a.1 == l') = true
      · rw [List.find?_cons_of_pos _ (by exact hk), List.find?_cons_of_pos _ (by exact hk)]
      · rw [List.find?_cons_of_neg _ (by exact hk), List.find?_cons_of_neg _ (by exact hk)]
        exact ih

theorem setInner_find_other (inner : List (Option Nat × String))
    (l : Option Nat) (t : String) (l' : Option Nat) (h : l' ≠ l) :
    (setInner inner l t).find? (fun q => q.1 == l')
      = inner.find? (fun q => q.1 == l') := by
  unfold setInner
  by_cases hany : inner.any (fun q => q.1 == l) = true
  · rw [if_pos hany]
    exact setInner_map_find_other inner l t l' h
  · rw [if_neg hany, List.find?_append]
    have hll : (l == l') = false := beq_eq_false_iff_ne.mpr (fun hh => h hh.symm)
    have h1 : ([((l : Option Nat), t)].find? (fun q => q.1 == l')) = none := by
      simp [List.find?, hll]
    rw [h1, Option.or_none]

theorem setInner_length_absent (inner : List (Option Nat × String))
    (l : Option Nat) (t : String)
    (h : inner.find? (fun q => q.1 == l) = none) :
    (setInner inner l t).length = inner.length + 1 := by
  unfold setInner
  have hany : inner.any (fun q => q.1 == l) = false := by
    rw [List.any_eq_false]
    intro x hx hpx
    have := List.find?_eq_none.mp h x hx
    exact this hpx
  rw [if_neg (by simp [hany])]
  simp

theorem setOuter_map_find_other :
    ∀ (d : CompDict) (c : Option String) (l : Option Nat) (t : String)
      (c2 : Option String), c2 ≠ c →
      (d.map (fun p => if p.1 == c then (p.1, setInner p.2 l t) else p)).find?
        (fun p => p.1 == c2)
        = d.find? (fun p => p.1 == c2) := by
  intro d c l t c2 h
  induction d with
  | nil => rfl
  | cons a as ih =>
    by_cases ha : (a.1 == c) = true
    · have hac : a.1 = c := beq_iff_eq.mp ha
      have ha2 : (a.1 == c2) = false :=
        beq_eq_false_iff_ne.mpr (by rw [hac]; exact fun hh => h hh.symm)
      rw [List.map_cons, if_pos ha, List.find?_cons_of_neg _ (by simp [ha2]),
        List.find?_cons_of_neg _ (by simp [ha2])]
      exact ih
    · rw [List.map_cons, if_neg ha]
      by_cases hk : (a.1 == c2) = true
      · rw [List.find?_cons_of_pos _ (by exact hk), List.find?_cons_of_pos _ (by exact hk)]
      · rw [List.find?_cons_of_neg _ (by exact hk), List.find?_cons_of_neg _ (by exact hk)]
        exact ih

theorem setOuter_map_find_self :
    ∀ (d : CompDict) (c : Option String) (l : Option Nat) (t : String),
      (d.map (fun p => if p.1 == c then (p.1, setInner p.2 l t) else p)).find?
        (fun p => p.1 == c)
        = (d.find? (fun p => p.1 == c)).map (fun p => (p.1, setInner p.2 l t)) := by
  intro d c l t
  induction d with
  | nil => rfl
  | cons a as ih =>
    by_cases ha : (a.1 == c) = true
    · rw [List.map_cons, if_pos ha, List.find?_cons_of_pos _ (by simpa using ha),
        List.find?_cons_of_pos _ (by exact ha)]
      rfl
    · rw [List.map_cons, if_neg ha, List.find?_cons_of_neg _ (by exact ha),
        List.find?_cons_of_neg _ (by exact ha)]
      exact ih

theorem dictFind_setOuter_self (d : CompDict) (c : Option String)
    (l : Option Nat) (t : String) :
    dictFind (setOuter d c l t) c l = some t := by
  unfold setOuter
  by_cases hany : d.any (fun p => p.1 == c) = true
  · rw [if_pos hany]
    unfold dictFind
    rw [setOuter_map_find_self]
    cases hfind : d.find? (fun p => p.1 == c) with
    | none =>
      obtain ⟨x, hx, hpx⟩ := List.any_eq_true.mp hany
      exact absurd hpx (List.find?_eq_none.mp hfind x hx)
    | some p =>
      simp [setInner_find_self]
  · rw [if_neg hany]
    unfold dictFind
    rw [List.find?_append]
    have hnone : d.find? (fun p => p.1 == c) = none := by
      rw [List.find?_eq_none]
      intro x hx hpx
      exact hany (List.any_eq_true.mpr ⟨x, hx, hpx⟩)
    rw [hnone]
    simp only [Option.none_or]
    simp [setInner]

theorem dictFind_setOuter_other (d : CompDict) (c : Option String)
    (l : Option Nat) (t : String) (c2 : Option String) (l2 : Option Nat)
    (h : (c2, l2) ≠ (c, l)) :
    dictFind (setOuter d c l t) c2 l2 = dictFind d c2 l2 := by
  unfold setOuter
  by_cases hcc : c2 = c
  · subst hcc
    have hll : l2 ≠ l := fun he => h (by rw [he])
    by_cases hany : d.any (fun p => p.1 == c2) = true
    · rw [if_pos hany]
      unfold dictFind
      rw [setOuter_map_find_self]
      cases hfind : d.find? (fun p => p.1 == c2) with
      | none => rfl
      | some p =>
        simp [setInner_find_other p.2 l t l2 hll]
    · rw [if_neg hany]
      unfold dictFind
      rw [List.find?_append]
      have hnone : d.find? (fun p => p.1 == c2) = none := by
        rw [List.find?_eq_none]
        intro x hx hpx
        exact hany (List.any_eq_true.mpr ⟨x, hx, hpx⟩)
      rw [hnone]
      simp only [Option.none_or]
      have hll' : (l == l2) = false := beq_eq_false_iff_ne.mpr (fun hh => hll hh.symm)
      simp [setInner, hll']
  · by_cases hany : d.any (fun p => p.1 == c) = true
    · rw [if_pos hany]
      unfold dictFind
      rw [setOuter_map_find_other d c l t c2 hcc]
    · rw [if_neg hany]
      unfold dictFind
      rw [List.find?_append]
      have hc2 : ((c : Option String) == c2) = false :=
        beq_eq_false_iff_ne.mpr (fun hh => hcc hh.symm)
      rw [List.find?_cons_of_neg _ (by simp [hc2])]
      rw [show List.find? (fun p => p.1 == c2)
          ([] : List (Option String × List (Option Nat × String))) = none from rfl]
      rw [Option.or_none]

theorem map_setOuter_id (as : CompDict) (c : Option String) (l : Option Nat)
    (t : String) (h : ∀ p ∈ as, (p.1 == c) = false) :
    as.map (fun p => if p.1 == c then (p.1, setInner p.2 l t) else p) = as := by
  induction as with
  | nil => rfl
  | cons b bs ih =>
    rw [List.map_cons, if_neg (by simp [h b (List.mem_cons_self b bs)]),
      ih (fun p hp => h p (List.mem_cons_of_mem b hp))]

theorem entryCount_setOuter :
    ∀ (d : CompDict) (c : Option String) (l : Option Nat) (t : String),
      (d.map Prod.fst).Nodup → dictFind d c l = none →
      entryCount (setOuter d c l t) = entryCount d + 1 := by
  intro d
  induction d with
  | nil =>
    intro c l t _ _
    unfold setOuter setInner entryCount
    simp
  | cons a as ih =>
    intro c l t hnd habs
    by_cases ha : (a.1 == c) = true
    · rw [setOuter_cons_yes a as c l t ha]
      have hac : a.1 = c := beq_iff_eq.mp ha
      have hnotin : a.1 ∉ as.map Prod.fst := by
        rw [List.map_cons] at hnd
        exact (List.nodup_cons.mp hnd).1
      have htail : ∀ p ∈ as, (p.1 == c) = false := by
        intro p hp
        cases hx : (p.1 == c) with
        | false => rfl
        | true =>
          have : p.1 = c := beq_iff_eq.mp hx
          exact absurd (List.mem_map_of_mem Prod.fst hp)
            (by rw [← this] at hac; rw [hac] at hnotin; exact hnotin)
      rw [map_setOuter_id as c l t htail, entryCount_cons, entryCount_cons]
      have hinnone : a.2.find? (fun q => q.1 == l) = none := by
        have hdf := dictFind_cons_yes a as c l ha
        rw [habs] at hdf
        cases hfi : a.2.find? (fun q => q.1 == l) with
        | none => rfl
        | some q => rw [hfi] at hdf; cases hdf
      rw [setInner_length_absent a.2 l t hinnone]
      omega
    · have ha' : (a.1 == c) = false := by
        cases hx : (a.1 == c) with
        | false => rfl
        | true => exact absurd hx ha
      rw [setOuter_cons_no a as c l t ha', entryCount_cons, entryCount_cons]
      have hnd' : (as.map Prod.fst).Nodup := by
        rw [List.map_cons] at hnd
        exact (List.nodup_cons.mp hnd).2
      have habs' : dictFind as c l = none := by
        rw [← dictFind_cons_no a as c l ha']
        exact habs
      rw [ih c l t hnd' habs']
      omega

theorem setOuter_keys_nodup (d : CompDict) (c : Option String) (l : Option Nat)
    (t : String) (hnd : (d.map Prod.fst).Nodup) :
    ((setOuter d c l t).map Prod.fst).Nodup := by
  unfold setOuter
  by_cases hany : d.any (fun p => p.1 == c) = true
  · rw [if_pos hany]
    have hkeys : (d.map (fun p => if p.1 == c then (p.1, setInner p.2 l t) else p)).map
        Prod.fst = d.map Prod.fst := by
      rw [List.map_map]
      apply List.map_congr_left
      intro p _
      simp only [Function.comp]
      by_cases hpc : (p.1 == c) = true
      · rw [if_pos hpc]
      · rw [if_neg hpc]
    rw [hkeys]
    exact hnd
  · rw [if_neg hany, List.map_append]
    have hc : c ∉ d.map Prod.fst := by
      intro hmem
      obtain ⟨p, hp, hpc⟩ := List.mem_map.mp hmem
      exact hany (List.any_eq_true.mpr ⟨p, hp, by simp [hpc]⟩)
    rw [List.nodup_append]
    refine ⟨hnd, by simp, ?_⟩
    simp only [List.map_cons, List.map_nil]
    rw [List.disjoint_singleton]
    exact hc

theorem lessonKey_parts (c : String) (li : Nat) (hc : c ≠ "") (hl : li ≠ 0) :
    (lessonKeyOf c li).parent = some (courseKey c) ∧
    (lessonKeyOf c li).id = some li ∧
    (courseKey c).name = some c := by
  rw [lessonKeyOf_eq_of_ne c li hc hl, courseKey_eq_of_ne c hc]
  exact ⟨rfl, rfl, rfl⟩

theorem completionStep_ok (db : Datastore) (acc : CompDict) (c : String)
    (li : Nat) (cr : CourseRecord) (lr : LessonRecord)
    (hc : c ≠ "") (hl : li ≠ 0)
    (hcourse : db.get (courseKey c) = some ⟨courseKey c, EntityData.course cr⟩)
    (hlesson : db.get (lessonKeyOf c li)
      = some ⟨lessonKeyOf c li, EntityData.lesson lr⟩) :
    completionStep db acc (lessonKeyOf c li)
      = Except.ok (setOuter acc (some c) (some li) lr.title) := by
  obtain ⟨hpar, hid, hname⟩ := lessonKey_parts c li hc hl
  simp only [completionStep, hpar, hcourse, hlesson, hname, hid]

theorem load_go_spec (db : Datastore) (crs : String → CourseRecord)
    (lsn : String × Nat → LessonRecord) :
    ∀ (ps : List (String × Nat)) (acc : CompDict),
      (∀ p ∈ ps, p.1 ≠ "" ∧ p.2 ≠ 0) →
      (∀ p ∈ ps, db.get (courseKey p.1)
        = some ⟨courseKey p.1, EntityData.course (crs p.1)⟩) →
      (∀ p ∈ ps, db.get (lessonKeyOf p.1 p.2)
        = some ⟨lessonKeyOf p.1 p.2, EntityData.lesson (lsn p)⟩) →
      (∀ p ∈ ps, dictFind acc (some p.1) (some p.2) = none) →
      ps.Nodup →
      (acc.map Prod.fst).Nodup →
      ∃ d, load_completions_go db (ps.map (fun p => lessonKeyOf p.1 p.2)) acc
            = Except.ok d ∧
        entryCount d = entryCount acc + ps.length ∧
        (∀ p ∈ ps, dictFind d (some p.1) (some p.2) = some (lsn p).title) ∧
        (∀ c l, (∀ p ∈ ps,
            ((some p.1 : Option String), (some p.2 : Option Nat)) ≠ (c, l)) →
          dictFind d c l = dictFind acc c l) := by
  intro ps
  induction ps with
  | nil =>
    intro acc _ _ _ _ _ _
    exact ⟨acc, rfl, by simp, by simp, fun c l _ => rfl⟩
  | cons p rest ih =>
    intro acc htr hcs hls habs hnd hknd
    have hp := htr p (List.mem_cons_self p rest)
    have hstep := completionStep_ok db acc p.1 p.2 (crs p.1) (lsn p) hp.1 hp.2
      (hcs p (List.mem_cons_self p rest)) (hls p (List.mem_cons_self p rest))
    have hrest_ne : ∀ q ∈ rest,
        ((some q.1 : Option String), (some q.2 : Option Nat))
          ≠ (some p.1, some p.2) := by
      intro q hq he
      have hq1 : q.1 = p.1 := Option.some.inj (congrArg Prod.fst he)
      have hq2 : q.2 = p.2 := Option.some.inj (congrArg Prod.snd he)
      have hqp : q = p := by
        cases q
        cases p
        simp only [Prod.mk.injEq]
        exact ⟨hq1, hq2⟩
      exact (List.nodup_cons.mp hnd).1 (hqp ▸ hq)
    have habs2 : ∀ q ∈ rest,
        dictFind (setOuter acc (some p.1) (some p.2) (lsn p).title)
          (some q.1) (some q.2) = none := by
      intro q hq
      rw [dictFind_setOuter_other acc (some p.1) (some p.2) (lsn p).title
        (some q.1) (some q.2) (hrest_ne q hq)]
      exact habs q (List.mem_cons_of_mem p hq)
    obtain ⟨d, hgo, hcnt, hfound, hpres⟩ :=
      ih (setOuter acc (some p.1) (some p.2) (lsn p).title)
        (fun q hq => htr q (List.mem_cons_of_mem p hq))
        (fun q hq => hcs q (List.mem_cons_of_mem p hq))
        (fun q hq => hls q (List.mem_cons_of_mem p hq))
        habs2 (List.nodup_cons.mp hnd).2
        (setOuter_keys_nodup acc (some p.1) (some p.2) (lsn p).title hknd)
    refine ⟨d, ?_, ?_, ?_, ?_⟩
    · rw [List.map_cons]
      unfold load_completions_go
      rw [hstep]
      exact hgo
    · rw [hcnt, entryCount_setOuter acc (some p.1) (some p.2) (lsn p).title hknd
        (habs p (List.mem_cons_self p rest))]
      simp only [List.length_cons]
      omega
    · intro q hq
      rcases List.mem_cons.mp hq with hh | hq'
      · subst hh
        rw [hpres (some q.1) (some q.2) hrest_ne]
        exact dictFind_setOuter_self acc (some q.1) (some q.2) (lsn q).title
      · exact hfound q hq'
    · intro c l hne
      rw [hpres c l (fun q hq => hne q (List.mem_cons_of_mem p hq))]
      exact dictFind_setOuter_other acc (some p.1) (some p.2) (lsn p).title c l
        (hne p (List.mem_cons_self p rest)).symm

/-- C5: starting from a user record with empty completions, after N
`save_completion` calls with pairwise-distinct (coursecode, lessonid)
pairs whose course and lesson records exist in the store, all calls
succeed and `load_completions` returns a two-level mapping holding
exactly N (course, lesson) entries, each keyed by the course code and
lesson id with the stored lesson title as value. -/
theorem save_load_completions_roundtrip
    (db : Datastore) (un : String) (ps : List (String × Nat)) (u : UserRecord)
    (crs : String → CourseRecord) (lsn : String × Nat → LessonRecord)
    (hu : db.get (userKey un) = some ⟨userKey un, EntityData.user u⟩)
    (hempty : u.completions = [])
    (htr : ∀ p ∈ ps, p.1 ≠ "" ∧ p.2 ≠ 0)
    (hcs : ∀ p ∈ ps, db.get (courseKey p.1)
      = some ⟨courseKey p.1, EntityData.course (crs p.1)⟩)
    (hls : ∀ p ∈ ps, db.get (lessonKeyOf p.1 p.2)
      = some ⟨lessonKeyOf p.1 p.2, EntityData.lesson (lsn p)⟩)
    (hnd : ps.Nodup) :
    ∃ db2 d,
      save_completions_list db un ps = Except.ok db2 ∧
      load_completions db2 un = Except.ok d ∧
      entryCount d = ps.length ∧
      ∀ p ∈ ps, dictFind d (some p.1) (some p.2) = some (lsn p).title := by
  have hkeysnd : (ps.map (fun p => lessonKeyOf p.1 p.2)).Nodup := by
    apply List.Nodup.map_on ?_ hnd
    intro x hx y hy hxy
    have hx' := htr x hx
    have hy' := htr y hy
    obtain ⟨h1, h2⟩ := lessonKeyOf_inj x.1 y.1 x.2 y.2 hx'.1 hx'.2 hy'.1 hy'.2 hxy
    cases x
    cases y
    simp only [Prod.mk.injEq]
    exact ⟨h1, h2⟩
  have hnotin : ∀ p ∈ ps, lessonKeyOf p.1 p.2 ∉ u.completions := by
    intro p _ hmem
    rw [hempty] at hmem
    cases hmem
  obtain ⟨db2, hsl, hget2, hframe⟩ :=
    save_list_progress un ps db u hu hnotin hkeysnd
  rw [hempty] at hget2
  have hget2' : db2.get (userKey un) = some ⟨userKey un, EntityData.user
      { u with completions := ps.map (fun p => lessonKeyOf p.1 p.2) }⟩ := hget2
  have hcs2 : ∀ p ∈ ps, db2.get (courseKey p.1)
      = some ⟨courseKey p.1, EntityData.course (crs p.1)⟩ :=
    fun p hp => (hframe (courseKey p.1) (courseKey_ne_userKey p.1 un)).trans (hcs p hp)
  have hls2 : ∀ p ∈ ps, db2.get (lessonKeyOf p.1 p.2)
      = some ⟨lessonKeyOf p.1 p.2, EntityData.lesson (lsn p)⟩ :=
    fun p hp => (hframe (lessonKeyOf p.1 p.2)
      (lessonKeyOf_ne_userKey p.1 un p.2)).trans (hls p hp)
  obtain ⟨d, hgo, hcnt, hfound, _⟩ :=
    load_go_spec db2 crs lsn ps [] htr hcs2 hls2 (fun p _ => rfl) hnd (by simp)
  refine ⟨db2, d, hsl, ?_, ?_, hfound⟩
  · have hu2 : _load_entity db2 _USER_ENTITY (some (Ident.str un)) none
        = some ⟨userKey un, EntityData.user
            { u with completions := ps.map (fun p => lessonKeyOf p.1 p.2) }⟩ := hget2'
    unfold load_completions
    rw [hu2]
    exact hgo
  · rw [hcnt, show entryCount [] = 0 from rfl, Nat.zero_add]

/-! ### Concrete stores for the witnesses -/

def sampleCourseRec : CourseRecord := ⟨"c1", "First Course", "a description"⟩

def sampleLessonRec : LessonRecord := ⟨"Lesson One", "lesson body"⟩

def sampleUserRec : UserRecord := ⟨"u1", "u1@x.com", "h1", "hi", []⟩

def sampleDb : Datastore :=
  ⟨[⟨userKey "u1", EntityData.user sampleUserRec⟩,
    ⟨courseKey "c1", EntityData.course sampleCourseRec⟩,
    ⟨lessonKeyOf "c1" 1, EntityData.lesson sampleLessonRec⟩]⟩

def emptyDb : Datastore := ⟨[]⟩

/-! ### Witnesses -/

/-- Witness for C1 at a concrete store. -/
theorem save_completion_idempotent_witness :
    ∃ db1 db2 u2,
      save_completion sampleDb "u1" "c1" 1 = Except.ok db1 ∧
      save_completion db1 "u1" "c1" 1 = Except.ok db2 ∧
      db2.get (userKey "u1") = some ⟨userKey "u1", EntityData.user u2⟩ ∧
      u2.completions.count (lessonKeyOf "c1" 1) = 1 :=
  save_completion_idempotent sampleDb "u1" "c1" 1 sampleUserRec
    (by decide) (by decide)

/-- Witness for C2 at a concrete store: right username, wrong hash. -/
theorem load_user_exact_match_witness :
    load_user sampleDb "u1" "wrong" = none :=
  (load_user_exact_match sampleDb "u1" "wrong").2 (by
    intro e he r hdata hun
    simp only [sampleDb, List.mem_cons, List.not_mem_nil, or_false] at he
    rcases he with rfl | rfl | rfl
    · injection hdata with h2
      subst h2
      decide
    · simp at hdata
    · simp at hdata)

/-- Witness for C3 at a concrete store. -/
theorem save_user_full_replace_witness :
    (save_user sampleDb ⟨"u2", "e2", "about2"⟩ "h2").get
        ⟨[(_USER_ENTITY, some (Ident.str "u2"))]⟩
      = some ⟨⟨[(_USER_ENTITY, some (Ident.str "u2"))]⟩,
              EntityData.user ⟨"u2", "e2", "h2", "", []⟩⟩ ∧
    load_about_user (save_user sampleDb ⟨"u2", "e2", "about2"⟩ "h2") "u2"
      = Except.ok "" :=
  save_user_full_replace sampleDb ⟨"u2", "e2", "about2"⟩ "h2" (by decide)

/-- Witness for C4 at a concrete store. -/
theorem load_user_strips_passwordhash_witness :
    ∃ e ∈ sampleDb.entities, ∃ r : UserRecord,
      e.data = EntityData.user r ∧
      ({ username := "u1", email := "u1@x.com", about := "hi" } : User)
        = { username := r.username, email := r.email, about := r.about } :=
  load_user_strips_passwordhash sampleDb "u1" "h1"
    { username := "u1", email := "u1@x.com", about := "hi" } (by decide)

/-- Witness for C5 at a concrete store with one completion. -/
theorem save_load_completions_roundtrip_witness :
    ∃ db2 d,
      save_completions_list sampleDb "u1" [("c1", 1)] = Except.ok db2 ∧
      load_completions db2 "u1" = Except.ok d ∧
      entryCount d = 1 ∧
      ∀ p ∈ ([("c1", 1)] : List (String × Nat)),
        dictFind d (some p.1) (some p.2) = some "Lesson One" :=
  save_load_completions_roundtrip sampleDb "u1" [("c1", 1)] sampleUserRec
    (fun _ => sampleCourseRec) (fun _ => sampleLessonRec)
    (by decide) rfl (by decide) (by decide) (by decide) (by decide)

/-- Witness for C6 at the empty store. -/
theorem absent_record_raises_witness :
    load_course emptyDb "c9" = Except.error PyErr.attributeError ∧
    load_lesson emptyDb "c9" 7 = Except.error PyErr.attributeError ∧
    save_about_user emptyDb "u9" "x" = Except.error PyErr.typeError := by
  obtain ⟨h1, h2, h3⟩ := absent_record_raises emptyDb "c9" "u9" "x" 7
  exact ⟨h1 (by decide), h2 (by decide), h3 (by decide)⟩

/-- Witness for C7 at a concrete store. -/
theorem load_about_user_lenient_witness :
    load_about_user sampleDb "u1" = Except.ok "hi" ∧
    load_about_user sampleDb "ghost" = Except.ok "" :=
  ⟨(load_about_user_lenient sampleDb "u1" sampleUserRec).1 (by decide),
   (load_about_user_lenient sampleDb "ghost" sampleUserRec).2 (by decide)⟩

/-- Witness for C8 at a concrete store. -/
theorem load_courses_raw_sorted_witness :
    (load_courses sampleDb).Perm
      (sampleDb.entities.filter (fun e => e.key.kind == _COURSE_ENTITY)) ∧
    List.Sorted courseGe (load_courses sampleDb) ∧
    (∀ e ∈ load_courses sampleDb,
      e ∈ sampleDb.entities ∧ e.key.kind = _COURSE_ENTITY) :=
  load_courses_raw_sorted sampleDb

/-- Witness for C9 at a concrete store. -/
theorem save_completion_frame_witness :
    ∃ db2 u2 t,
      save_completion sampleDb "u1" "c1" 1 = Except.ok db2 ∧
      db2.get (userKey "u1") = some ⟨userKey "u1", EntityData.user u2⟩ ∧
      u2.username = sampleUserRec.username ∧ u2.email = sampleUserRec.email ∧
      u2.passwordhash = sampleUserRec.passwordhash ∧
      u2.about = sampleUserRec.about ∧
      u2.completions = sampleUserRec.completions ++ t ∧ t.length ≤ 1 :=
  save_completion_frame sampleDb "u1" "c1" 1 sampleUserRec (by decide)
